import Mathlib

/-!
Verification of `config_to_blender.py` against its specification.

The script reads a JSON config document, compiles its `config` mapping into a
Blender geometry-node-group parameter interface (the schema interpreter), and
binds `parts` entries to named materials on the active object (the appearance
binder).  This file gives a shallow embedding of the script:

* JSON values are modelled by `JVal`; Python numbers are idealised as exact
  rationals (`ℚ`) for floats and `ℤ` for ints (IEEE rounding is not modelled,
  but none of the verified properties depend on it).
* Python-level operations used by the script (`int(...)`, `float(...)`,
  equality between a value and an int, subscripting, `str(...)`) are modelled
  by `pyInt`, `pyFloat`, `pyEqInt`, `pyIndex`, `pyStr`.  Exceptions are
  modelled with `Except String`.  (`int`/`float` of strings is modelled for
  plain signed decimal literals; whitespace, underscores and exponents are
  omitted — no verified property touches string-typed bounds.  `str` of a
  Python float is rendered from the exact rational, an idealisation of the
  IEEE repr; no verified property depends on that rendering.)
* The Blender data store (named node groups, named materials, the active
  object's material slot list) is modelled by explicit registries in `Host`.
  Visual node locations, the modifier stack of `main()`, and Blender's
  renaming of colliding enum items are outside the modelled surface.
-/

set_option maxRecDepth 4096

/-- JSON values as produced by `json.load`: null, bools, ints, floats,
strings, arrays, and objects (ordered key/value lists with unique keys). -/
inductive JVal where
  | jnull : JVal
  | jbool : Bool → JVal
  | jint : Int → JVal
  | jfloat : ℚ → JVal
  | jstr : String → JVal
  | jlist : List JVal → JVal
  | jobj : List (String × JVal) → JVal

/-- Association-list lookup, modelling Python dict membership / subscripting
(JSON object keys are unique, so first match is the match). -/
def lookupJ : List (String × JVal) → String → Option JVal
  | [], _ => none
  | (k, v) :: rest, key => if k = key then some v else lookupJ rest key

/-- Python `isinstance(x, str)`. -/
def isStr : JVal → Bool
  | .jstr _ => true
  | _ => false

/-- Python `isinstance(x, bool)`. -/
def isBool : JVal → Bool
  | .jbool _ => true
  | _ => false

/-- Python `isinstance(x, int)`: true for ints AND bools (bool is a subclass
of int in Python). -/
def isinstInt : JVal → Bool
  | .jint _ => true
  | .jbool _ => true
  | _ => false

/-- Numeric JSON values (int, float, bool) — the values for which the
script's arithmetic never raises. -/
def isNumeric : JVal → Bool
  | .jint _ => true
  | .jbool _ => true
  | .jfloat _ => true
  | _ => false

/-- The exact numeric value of a numeric `JVal` (0 for non-numeric values,
which is never relied upon). -/
def ratOf : JVal → ℚ
  | .jint n => (n : ℚ)
  | .jbool b => if b then 1 else 0
  | .jfloat q => q
  | _ => 0

/-- Python `int(...)` truncation toward zero on an exact rational. -/
def pyTrunc (q : ℚ) : Int :=
  if 0 ≤ q then Int.floor q else Int.ceil q

/-- Value of a digit string (most significant first); 0 for the empty list. -/
def digitsVal : List Char → Nat
  | ds => ds.foldl (fun acc c => acc * 10 + (c.toNat - 48)) 0

/-- Parse a non-empty all-digit string. -/
def parseDigits (ds : List Char) : Option Nat :=
  if ds.isEmpty then none
  else if ds.all Char.isDigit then some (digitsVal ds) else none

/-- Python `int(s)` on a string: an optional sign followed by digits
(whitespace/underscore forms are not modelled). -/
def parsePyInt (s : String) : Option Int :=
  match s.toList with
  | '-' :: ds => (parseDigits ds).map (fun n => -(n : Int))
  | '+' :: ds => (parseDigits ds).map (fun n => (n : Int))
  | ds => (parseDigits ds).map (fun n => (n : Int))

/-- Unsigned part of Python `float(s)`: digits, an optional point, digits
(at least one digit overall; exponents/inf/nan are not modelled). -/
def parseUFloat (ds : List Char) : Option ℚ :=
  let intPart := ds.takeWhile Char.isDigit
  let rest := ds.dropWhile Char.isDigit
  match rest with
  | [] => if intPart.isEmpty then none else some ((digitsVal intPart : ℚ))
  | '.' :: frac =>
    if frac.all Char.isDigit && !(intPart.isEmpty && frac.isEmpty) then
      some ((digitsVal intPart : ℚ) + (digitsVal frac : ℚ) / ((10 : ℚ) ^ frac.length))
    else none
  | _ => none

/-- Python `float(s)` on a string. -/
def parsePyFloat (s : String) : Option ℚ :=
  match s.toList with
  | '-' :: ds => (parseUFloat ds).map (fun q => -q)
  | '+' :: ds => parseUFloat ds
  | ds => parseUFloat ds

/-- Python `int(x)`: identity on ints, 0/1 on bools, truncation toward zero
on floats, literal parsing on strings (ValueError on failure), TypeError on
anything else. -/
def pyInt : JVal → Except String Int
  | .jbool b => .ok (if b then 1 else 0)
  | .jint n => .ok n
  | .jfloat q => .ok (pyTrunc q)
  | .jstr s =>
    match parsePyInt s with
    | some n => .ok n
    | none => .error "ValueError"
  | _ => .error "TypeError"

/-- Python `float(x)`. -/
def pyFloat : JVal → Except String ℚ
  | .jbool b => .ok (if b then 1 else 0)
  | .jint n => .ok ((n : ℚ))
  | .jfloat q => .ok q
  | .jstr s =>
    match parsePyFloat s with
    | some q => .ok q
    | none => .error "ValueError"
  | _ => .error "TypeError"

/-- Python `x == m` for an int `m`: numeric cross-type equality for
ints/floats/bools, `False` for every other type (never raises). -/
def pyEqInt : JVal → Int → Bool
  | .jbool b, m => decide ((if b then (1 : Int) else 0) = m)
  | .jint n, m => decide (n = m)
  | .jfloat q, m => decide (q = (m : ℚ))
  | _, _ => false

/-- Python `x[i]` for a non-negative index: list element (IndexError when out
of range), one-character string for strings, TypeError otherwise (a dict
with the integer key `i` cannot arise from JSON). -/
def pyIndex : JVal → Nat → Except String JVal
  | .jlist xs, i =>
    match xs.get? i with
    | some v => .ok v
    | none => .error "IndexError"
  | .jstr s, i =>
    match s.toList.get? i with
    | some c => .ok (.jstr (String.singleton c))
    | none => .error "IndexError"
  | _, _ => .error "TypeError"

/-- Python float repr rendered from the exact rational (idealisation of the
IEEE shortest-roundtrip repr; no verified property depends on it). -/
def ratRepr (q : ℚ) : String :=
  if q.den = 1 then toString q.num ++ ".0"
  else toString q.num ++ "/" ++ toString q.den

/-- Python `repr(x)` for JSON-derived values.  String escaping inside repr
is not modelled beyond quoting. -/
def pyRepr : JVal → String
  | .jnull => "None"
  | .jbool b => if b then "True" else "False"
  | .jint n => toString n
  | .jfloat q => ratRepr q
  | .jstr s => "\x27" ++ s ++ "\x27"
  | .jlist xs =>
    "[" ++ String.intercalate ", " (xs.attach.map (fun x => pyRepr x.1)) ++ "]"
  | .jobj fs =>
    "\x7b" ++
      String.intercalate ", "
        (fs.attach.map (fun p => "\x27" ++ p.1.1 ++ "\x27: " ++ pyRepr p.1.2)) ++
      "\x7d"
termination_by v => sizeOf v
decreasing_by
  · have h := List.sizeOf_lt_of_mem x.2
    simp only [JVal.jlist.sizeOf_spec]
    omega
  · obtain ⟨⟨k, v⟩, hm⟩ := p
    have h := List.sizeOf_lt_of_mem hm
    simp only [Prod.mk.sizeOf_spec] at h
    simp only [JVal.jobj.sizeOf_spec]
    omega

/-- Python `str(x)`: the string itself for strings, otherwise repr (for
scalars the two agree, and the cases are spelled out so that they compute
structurally). -/
def pyStr : JVal → String
  | .jstr s => s
  | .jnull => "None"
  | .jbool b => if b then "True" else "False"
  | .jint n => toString n
  | .jfloat q => ratRepr q
  | v => pyRepr v

/-- Socket value: int, float or bool, as stored on an interface socket. -/
inductive SVal where
  | i : Int → SVal
  | f : ℚ → SVal
  | b : Bool → SVal
deriving DecidableEq

/-- Numeric reading of a socket value, for the min/default/max invariant. -/
def SVal.toRat : SVal → ℚ
  | .i n => (n : ℚ)
  | .f q => q
  | .b bv => if bv then 1 else 0

/-- The socket types the script creates
(`NodeSocketGeometry`/`Int`/`Float`/`Bool`/`Menu`). -/
inductive SocketType where
  | geometry | int | float | bool | menu
deriving DecidableEq

/-- Interface socket direction. -/
inductive InOut where
  | input | output
deriving DecidableEq

/-- One interface socket of the node group: name, direction, type, and the
optional `min_value` / `max_value` / `default_value` the script assigns. -/
structure InterfaceSocket where
  name : String
  inOut : InOut
  socketType : SocketType
  minVal : Option SVal
  maxVal : Option SVal
  defaultVal : Option SVal
deriving DecidableEq

/-- One enum item of a menu switch node: `enum_items.new(str(option))` with
`item.description = f"{param_name} option: {option}"`. -/
structure EnumItem where
  name : String
  description : String
deriving DecidableEq

/-- A `GeometryNodeMenuSwitch` node created for a string-enum parameter:
node name `MenuSwitch_<param>`, label `<param>`, and its enum items. -/
structure MenuSwitchNode where
  nodeName : String
  label : String
  items : List EnumItem
deriving DecidableEq

/-- The node group built by `create_parameter_node_group`: its name, the
interface sockets in creation order, the menu switch nodes, the custom
properties (`menu_options_*` / `bool_options_*` / `enum_options_*`), and the
links from group-input outputs to menu-switch `Menu` inputs. -/
structure NodeGroup where
  name : String
  sockets : List InterfaceSocket
  menuNodes : List MenuSwitchNode
  props : List (String × String)
  links : List (String × String)
deriving DecidableEq

/-- The `Geometry` output socket added before parameter processing. -/
def geometrySocket : InterfaceSocket :=
  ⟨"Geometry", .output, .geometry, none, none, none⟩

/-- A freshly created node group, before any parameter is processed. -/
def emptyGroup (object_name : String) : NodeGroup :=
  ⟨object_name, [geometrySocket], [], [], []⟩

/-- What processing one config entry adds to the group: one socket, plus an
optional menu node, custom property, and link. -/
structure EntryOut where
  socket : InterfaceSocket
  menuNode : Option MenuSwitchNode
  prop : Option (String × String)
  link : Option (String × String)
deriving DecidableEq

/-- The Int-socket outcome shared by the integer `range` branch and the
`count` branch: `min=a`, `max=b`, `default=min`. -/
def mkIntEntry (name : String) (a b : Int) : EntryOut :=
  ⟨⟨name, .input, .int, some (.i a), some (.i b), some (.i a)⟩, none, none, none⟩

/-- The Float-socket outcome of the `range` branch: `min=x`, `max=y`,
`default=(x+y)/2`. -/
def mkFloatEntry (name : String) (x y : ℚ) : EntryOut :=
  ⟨⟨name, .input, .float, some (.f x), some (.f y), some (.f ((x + y) / 2))⟩,
   none, none, none⟩

/-- Lines 139-140: `are_integers = (isinstance(min_val, int) and
isinstance(max_val, int)) or (min_val == int(min_val) and
max_val == int(max_val))`, with Python short-circuit evaluation (so
`int(max_val)` is only computed when needed and may raise). -/
def areIntegers (lo hi : JVal) : Except String Bool :=
  if isinstInt lo && isinstInt hi then .ok true
  else
    match pyInt lo with
    | .error e => .error e
    | .ok a =>
      if pyEqInt lo a then
        match pyInt hi with
        | .error e => .error e
        | .ok b => .ok (pyEqInt hi b)
      else .ok false

/-- Lines 132-172: the `range` branch.  `min_val = param_data["range"][0]`,
`max_val = param_data["range"][1]`, then the int/float classification. -/
def processRange (name : String) (rv : JVal) : Except String EntryOut :=
  match pyIndex rv 0 with
  | .error e => .error e
  | .ok lo =>
    match pyIndex rv 1 with
    | .error e => .error e
    | .ok hi =>
      match areIntegers lo hi with
      | .error e => .error e
      | .ok true =>
        match pyInt lo with
        | .error e => .error e
        | .ok a =>
          match pyInt hi with
          | .error e => .error e
          | .ok b => .ok (mkIntEntry name a b)
      | .ok false =>
        match pyFloat lo with
        | .error e => .error e
        | .ok x =>
          match pyFloat hi with
          | .error e => .error e
          | .ok y => .ok (mkFloatEntry name x y)

/-- Lines 174-192: the `count` branch.
`min_val = int(param_data["count"][0])`,
`max_val = int(param_data["count"][1])`, `default_val = min_val`. -/
def processCount (name : String) (cv : JVal) : Except String EntryOut :=
  match pyIndex cv 0 with
  | .error e => .error e
  | .ok a0 =>
    match pyInt a0 with
    | .error e => .error e
    | .ok a =>
      match pyIndex cv 1 with
      | .error e => .error e
      | .ok b0 =>
        match pyInt b0 with
        | .error e => .error e
        | .ok b => .ok (mkIntEntry name a b)

/-- Lines 196-274: the list branch.  `has_strings = any(isinstance(item, str)
...)`; if so, a menu socket plus a menu switch node whose enum items are
created only for the string-typed elements, a `menu_options_` property
joining ALL elements coerced by `str`, and a link from the group input to
the node's `Menu` input.  Otherwise `has_booleans = all(isinstance(item,
bool) ...)` (vacuously true for `[]`, after which `param_data[0]` raises
IndexError); a bool socket defaulting to the first element.  Otherwise an
int socket with `min=0`, `max=len-1`, `default=0`. -/
def processList (name : String) (xs : List JVal) : Except String EntryOut :=
  if xs.any isStr then
    .ok ⟨⟨name, .input, .menu, none, none, none⟩,
         some ⟨"MenuSwitch_" ++ name, name,
               xs.filterMap (fun v =>
                 match v with
                 | .jstr s => some ⟨s, name ++ " option: " ++ s⟩
                 | _ => none)⟩,
         some ("menu_options_" ++ name, String.intercalate "," (xs.map pyStr)),
         some (name, "Menu")⟩
  else if xs.all isBool then
    match xs with
    | [] => .error "IndexError"
    | v :: _ =>
      .ok ⟨⟨name, .input, .bool, none, none,
            some (.b (match v with | .jbool bv => bv | _ => false))⟩,
           none,
           some ("bool_options_" ++ name, String.intercalate "," (xs.map pyStr)),
           none⟩
  else
    .ok ⟨⟨name, .input, .int, some (.i 0), some (.i ((xs.length : Int) - 1)),
          some (.i 0)⟩,
         none,
         some ("enum_options_" ++ name, String.intercalate "," (xs.map pyStr)),
         none⟩

/-- Lines 128-277: processing of one `(param_name, param_data)` entry.
Dicts are checked for `range` then `count` (neither: the entry is silently
skipped), lists go to the list branch, and scalars are skipped.  `.ok none`
is a skip; `.error` models an exception escaping the entry (which the
function-level `except` turns into a failure of the whole compilation). -/
def processEntry (name : String) (v : JVal) : Except String (Option EntryOut) :=
  match v with
  | .jobj fields =>
    match lookupJ fields "range" with
    | some rv =>
      match processRange name rv with
      | .ok eo => .ok (some eo)
      | .error e => .error e
    | none =>
      match lookupJ fields "count" with
      | some cv =>
        match processCount name cv with
        | .ok eo => .ok (some eo)
        | .error e => .error e
      | none => .ok none
  | .jlist xs =>
    match processList name xs with
    | .ok eo => .ok (some eo)
    | .error e => .error e
  | _ => .ok none

/-- Append one entry's output to the group being built. -/
def addEntry (g : NodeGroup) (e : EntryOut) : NodeGroup :=
  ⟨g.name,
   g.sockets ++ [e.socket],
   g.menuNodes ++ e.menuNode.toList,
   g.props ++ e.prop.toList,
   g.links ++ e.link.toList⟩

/-- The parameter loop: entries are processed in order; a skip contributes
nothing; an exception stops the loop, returning the partially built group
together with the error. -/
def buildEntries (g : NodeGroup) : List (String × JVal) → NodeGroup × Option String
  | [] => (g, none)
  | (n, v) :: rest =>
    match processEntry n v with
    | .error e => (g, some e)
    | .ok none => buildEntries g rest
    | .ok (some eo) => buildEntries (addEntry g eo) rest

/-- Line 124 and the `.items()` call: the `config` section of the document.
`.ok none` when the key is absent (the loop is skipped), an error when the
value is not an object (`.items()` raises AttributeError). -/
def configSection : JVal → Except String (Option (List (String × JVal)))
  | .jobj fields =>
    match lookupJ fields "config" with
    | none => .ok none
    | some (.jobj cfg) => .ok (some cfg)
    | some _ => .error "AttributeError"
  | _ => .error "TypeError"

/-- Lines 89-285, `create_parameter_node_group(config_data, object_name)`
acting on the node-group registry: any existing group under `object_name`
is removed, a fresh group (with the `Geometry` output socket) is created
and registered, the config entries are processed, and on an exception the
function returns `None` while the partially built group stays registered
(the `except` block only prints). -/
def create_parameter_node_group (st : List (String × NodeGroup))
    (config_data : JVal) (object_name : String) :
    List (String × NodeGroup) × Option NodeGroup :=
  let st1 := st.filter (fun p => p.1 != object_name)
  match configSection config_data with
  | .ok (some entries) =>
    let r := buildEntries (emptyGroup object_name) entries
    (st1 ++ [(object_name, r.1)],
     match r.2 with
     | some _ => none
     | none => some r.1)
  | .ok none =>
    (st1 ++ [(object_name, emptyGroup object_name)],
     some (emptyGroup object_name))
  | .error _ =>
    (st1 ++ [(object_name, emptyGroup object_name)], none)

/-- Lines 287-327, `create_simple_materials(parts_data, object_name)` on the
material-name registry: each part name is skipped when a material of that
name already exists, otherwise a material is created (appended to the
registry) and the name is recorded in `materials_created`.  Returns the new
registry and the created-name list, in `parts` order. -/
def create_simple_materials : List String → List String → List String × List String
  | [], mats => (mats, [])
  | p :: rest, mats =>
    if p ∈ mats then create_simple_materials rest mats
    else
      let r := create_simple_materials rest (mats ++ [p])
      (r.1, p :: r.2)

/-- Lines 329-370, `assign_materials_to_object(material_names, obj)`:
`obj.data.materials.clear()` then each name in order is appended when it
exists in the material registry.  Returns the new slot list.  (The
`hasattr` guard is not modelled: the claims concern objects that can hold
materials.) -/
def assign_materials_to_object (material_names mats : List String) : List String :=
  material_names.filter (fun n => decide (n ∈ mats))

/-- The full host-visible state: node-group registry, material registry, and
the active object's material-slot list (`none` = no active object). -/
structure Host where
  nodeGroups : List (String × NodeGroup)
  materials : List String
  activeSlots : Option (List String)
deriving DecidableEq

/-- Lines 63-69 of `load_config_file`: create the materials for the `parts`
keys, then — only `if materials and bpy.context.active_object` — assign the
just-created names to the active object. -/
def apply_parts (partNames : List String) (h : Host) : Host :=
  let r := create_simple_materials partNames h.materials
  match h.activeSlots with
  | some slots =>
    if r.2 = [] then ⟨h.nodeGroups, r.1, some slots⟩
    else ⟨h.nodeGroups, r.1, some (assign_materials_to_object r.2 r.1)⟩
  | none => ⟨h.nodeGroups, r.1, none⟩

/-- Index of the last `'.'` in a character list, if any. -/
def lastDotIdx : List Char → Option Nat
  | [] => none
  | c :: rest =>
    match lastDotIdx rest with
    | some i => some (i + 1)
    | none => if c = '.' then some 0 else none

/-- `os.path.splitext(p)[0]`: drop the extension starting at the last dot,
unless every character before that dot is itself a dot (leading-dot
files keep their name). -/
def splitextBase (s : List Char) : List Char :=
  match lastDotIdx s with
  | none => s
  | some i => if (s.take i).any (fun c => c ≠ '.') then s.take i else s

/-- Worker for `str.replace`: scan left to right, replacing each
non-overlapping occurrence of `pat`; `fuel` only needs to be at least the
length of the subject (the Python empty-pattern behaviour is not needed by
the script, which always passes non-empty patterns). -/
def replaceGo : Nat → List Char → List Char → List Char → List Char
  | 0, _, _, s => s
  | _ + 1, _, _, [] => []
  | fuel + 1, pat, repl, c :: rest =>
    if pat.isEmpty then c :: rest
    else if pat.isPrefixOf (c :: rest) then
      repl ++ replaceGo fuel pat repl (List.drop pat.length (c :: rest))
    else c :: replaceGo fuel pat repl rest

/-- Python `s.replace(pat, repl)`: every non-overlapping occurrence, left to
right. -/
def replaceAll (pat repl s : List Char) : List Char :=
  replaceGo s.length pat repl s

/-- Line 44 on an extension-free base name:
`base.replace("_Config", "").replace("_config", "")`. -/
def objectNameOfBase (base : List Char) : List Char :=
  replaceAll ("_config".toList) [] (replaceAll ("_Config".toList) [] base)

/-- Lines 43-44: derive the object name from the config file name:
`os.path.splitext(filename)[0].replace("_Config", "").replace("_config", "")`. -/
def objectNameOfChars (filename : List Char) : List Char :=
  objectNameOfBase (splitextBase filename)

/-- String-level wrapper for `objectNameOfChars`. -/
def objectNameOf (filename : String) : String :=
  String.mk (objectNameOfChars filename.toList)

/-- Does a pattern occur anywhere in the subject? (`true` iff `str.replace`
would replace something, for a non-empty pattern.) -/
def hasMatch (pat : List Char) : List Char → Bool
  | [] => pat.isEmpty
  | c :: rest => pat.isPrefixOf (c :: rest) || hasMatch pat rest

/-- No occurrence of `pat` starts strictly before the final copy of `pat` in
`stem ++ pat` — the hypothesis under which `replace(pat, "")` recovers
exactly `stem`. -/
def noEarlyMatch (pat stem : List Char) : Prop :=
  ∀ i, i < stem.length → pat.isPrefixOf (List.drop i (stem ++ pat)) = false

/-- Lines 22-87, `load_config_file` on an already-parsed document (file
existence and JSON parsing are outside the embedding): derive the object
name from the filename, require a `config` section, build the node group
(the registry keeps the partial group even when building fails), then — when
a `parts` section exists — create materials and conditionally assign them.
A non-object `parts` value makes `create_simple_materials` fail internally
and return `[]` with the registry untouched, which is observationally the
empty-parts behaviour modelled here. -/
def load_config_file (doc : JVal) (filename : String) (h : Host) :
    Host × Option NodeGroup :=
  let object_name := objectNameOf filename
  match doc with
  | .jobj fields =>
    match lookupJ fields "config" with
    | none => (h, none)
    | some _ =>
      let r := create_parameter_node_group h.nodeGroups doc object_name
      let h1 : Host := ⟨r.1, h.materials, h.activeSlots⟩
      match r.2 with
      | none => (h1, none)
      | some ng =>
        match lookupJ fields "parts" with
        | some (.jobj partsFields) =>
          (apply_parts (partsFields.map Prod.fst) h1, some ng)
        | some _ => (h1, some ng)
        | none => (h1, some ng)
  | _ => (h, none)

/-- Did entry processing complete without an exception? -/
def entryOk (r : Except String (Option EntryOut)) : Bool :=
  match r with
  | .ok _ => true
  | .error _ => false

/-- The descriptor an entry contributes, `none` for skipped or failing
entries. -/
def classifiedEntry (p : String × JVal) : Option EntryOut :=
  match processEntry p.1 p.2 with
  | .ok r => r
  | .error _ => none

/-- The menu switch node produced by an entry, if any. -/
def entryMenuOf (r : Except String (Option EntryOut)) : Option MenuSwitchNode :=
  match r with
  | .ok (some eo) => eo.menuNode
  | _ => none

/-- The custom property produced by an entry, if any. -/
def entryPropOf (r : Except String (Option EntryOut)) : Option (String × String) :=
  match r with
  | .ok (some eo) => eo.prop
  | _ => none

/-! ### Numeric helper lemmas -/

theorem pyTrunc_intCast (n : ℤ) : pyTrunc ((n : ℚ)) = n := by
  unfold pyTrunc
  split
  · exact Int.floor_intCast n
  · exact Int.ceil_intCast n

theorem pyTrunc_one : pyTrunc 1 = 1 := by
  have h := pyTrunc_intCast 1
  norm_num at h
  exact h

theorem pyTrunc_zero : pyTrunc 0 = 0 := by
  have h := pyTrunc_intCast 0
  norm_num at h
  exact h

theorem rat_eq_trunc_iff (q : ℚ) : q = ((pyTrunc q : ℤ) : ℚ) ↔ q.den = 1 := by
  constructor
  · intro h
    rw [h]
    exact Rat.den_intCast _
  · intro h
    have hn : ((q.num : ℚ)) = q := (Rat.den_eq_one_iff q).mp h
    rw [← hn, pyTrunc_intCast]

theorem pyTrunc_den_one {q : ℚ} (h : q.den = 1) : pyTrunc q = Int.floor q := by
  have hn : ((q.num : ℚ)) = q := (Rat.den_eq_one_iff q).mp h
  rw [← hn, pyTrunc_intCast, Int.floor_intCast]

theorem pyInt_numeric {v : JVal} (h : isNumeric v = true) :
    pyInt v = .ok (pyTrunc (ratOf v)) := by
  cases v with
  | jint n => simp [pyInt, ratOf, pyTrunc_intCast]
  | jbool b =>
    cases b <;> simp [pyInt, ratOf, pyTrunc_one, pyTrunc_zero]
  | jfloat q => rfl
  | jnull => simp [isNumeric] at h
  | jstr s => simp [isNumeric] at h
  | jlist xs => simp [isNumeric] at h
  | jobj fs => simp [isNumeric] at h

theorem pyFloat_numeric {v : JVal} (h : isNumeric v = true) :
    pyFloat v = .ok (ratOf v) := by
  cases v with
  | jint n => rfl
  | jbool b => cases b <;> rfl
  | jfloat q => rfl
  | jnull => simp [isNumeric] at h
  | jstr s => simp [isNumeric] at h
  | jlist xs => simp [isNumeric] at h
  | jobj fs => simp [isNumeric] at h

theorem pyEqInt_numeric {v : JVal} (h : isNumeric v = true) (m : Int) :
    pyEqInt v m = decide (ratOf v = (m : ℚ)) := by
  cases v with
  | jint n =>
    simp only [pyEqInt, ratOf]
    rw [decide_eq_decide]
    exact_mod_cast Iff.rfl
  | jbool b =>
    cases b <;>
      simp only [pyEqInt, ratOf, if_true, if_false] <;>
      rw [decide_eq_decide] <;>
      constructor <;> intro hx <;> exact_mod_cast hx
  | jfloat q => rfl
  | jnull => simp [isNumeric] at h
  | jstr s => simp [isNumeric] at h
  | jlist xs => simp [isNumeric] at h
  | jobj fs => simp [isNumeric] at h

theorem pyEqInt_trunc {v : JVal} (h : isNumeric v = true) :
    pyEqInt v (pyTrunc (ratOf v)) = decide ((ratOf v).den = 1) := by
  rw [pyEqInt_numeric h, decide_eq_decide]
  exact rat_eq_trunc_iff (ratOf v)

theorem ratOf_den_isinst {v : JVal} (h : isinstInt v = true) :
    (ratOf v).den = 1 := by
  cases v with
  | jint n => exact Rat.den_intCast n
  | jbool b =>
    cases b <;> simp [ratOf]
  | jfloat q => simp [isinstInt] at h
  | jnull => simp [isinstInt] at h
  | jstr s => simp [isinstInt] at h
  | jlist xs => simp [isinstInt] at h
  | jobj fs => simp [isinstInt] at h

theorem areIntegers_numeric {lo hi : JVal}
    (hlo : isNumeric lo = true) (hhi : isNumeric hi = true) :
    areIntegers lo hi =
      .ok (decide ((ratOf lo).den = 1) && decide ((ratOf hi).den = 1)) := by
  by_cases hinst : (isinstInt lo && isinstInt hi) = true
  · simp only [Bool.and_eq_true] at hinst
    obtain ⟨h1, h2⟩ := hinst
    rw [areIntegers, if_pos (by simp [h1, h2])]
    simp [ratOf_den_isinst h1, ratOf_den_isinst h2]
  · rw [areIntegers, if_neg hinst]
    simp only [pyInt_numeric hlo, pyEqInt_trunc hlo]
    by_cases hl : (ratOf lo).den = 1
    · simp only [hl, decide_True, if_true]
      simp only [pyInt_numeric hhi, pyEqInt_trunc hhi]
      simp [hl]
    · simp [hl]

/-! ### Claims C6, C7, C10: range and count classification -/

/-- C6 (confirmed): for a config entry whose value is an object containing
`range` with numeric bounds `(lo, hi)`, if both bounds are representable as
integers (integer-typed, or numerically equal to their integer truncation —
for exact rationals, having denominator 1) the descriptor is an Int socket
with `min = floor lo`, `max = floor hi`, `default = min`; otherwise it is a
Float socket with `min = lo`, `max = hi`, `default = (lo + hi) / 2`. -/
theorem C6_range_classification (name : String) (fields : List (String × JVal))
    (lo hi : JVal) (rest : List JVal)
    (hr : lookupJ fields "range" = some (.jlist (lo :: hi :: rest)))
    (hlo : isNumeric lo = true) (hhi : isNumeric hi = true) :
    processEntry name (.jobj fields) =
      if (ratOf lo).den = 1 ∧ (ratOf hi).den = 1 then
        .ok (some (mkIntEntry name (Int.floor (ratOf lo)) (Int.floor (ratOf hi))))
      else
        .ok (some (mkFloatEntry name (ratOf lo) (ratOf hi))) := by
  have h0 : pyIndex (.jlist (lo :: hi :: rest)) 0 = .ok lo := rfl
  have h1 : pyIndex (.jlist (lo :: hi :: rest)) 1 = .ok hi := rfl
  simp only [processEntry, hr, processRange, h0, h1, areIntegers_numeric hlo hhi]
  by_cases hl : (ratOf lo).den = 1 <;> by_cases hh : (ratOf hi).den = 1 <;>
    simp [hl, hh, pyInt_numeric hlo, pyInt_numeric hhi,
          pyFloat_numeric hlo, pyFloat_numeric hhi,
          pyTrunc_den_one]

/-- Witness for C6 at the concrete entry `Height: {"range": [0, 10]}`. -/
theorem C6_witness :
    processEntry "Height" (.jobj [("range", .jlist [.jint 0, .jint 10])]) =
      if (ratOf (.jint 0)).den = 1 ∧ (ratOf (.jint 10)).den = 1 then
        .ok (some (mkIntEntry "Height"
          (Int.floor (ratOf (.jint 0))) (Int.floor (ratOf (.jint 10)))))
      else
        .ok (some (mkFloatEntry "Height" (ratOf (.jint 0)) (ratOf (.jint 10)))) :=
  C6_range_classification "Height" [("range", .jlist [.jint 0, .jint 10])]
    (.jint 0) (.jint 10) [] rfl rfl rfl

/-- C7 (corrected): a `count` entry yields an Int socket whose bounds come
from Python `int(...)`, i.e. truncation TOWARD ZERO (`pyTrunc`), not the
mathematical floor: `min = trunc(count[0])`, `max = trunc(count[1])`,
`default = min`.  For non-negative bounds truncation and floor agree. -/
theorem C7_count_truncation (name : String) (fields : List (String × JVal))
    (a b : JVal) (rest : List JVal)
    (hnr : lookupJ fields "range" = none)
    (hc : lookupJ fields "count" = some (.jlist (a :: b :: rest)))
    (ha : isNumeric a = true) (hb : isNumeric b = true) :
    processEntry name (.jobj fields) =
      .ok (some (mkIntEntry name (pyTrunc (ratOf a)) (pyTrunc (ratOf b)))) := by
  have h0 : pyIndex (.jlist (a :: b :: rest)) 0 = .ok a := rfl
  have h1 : pyIndex (.jlist (a :: b :: rest)) 1 = .ok b := rfl
  simp [processEntry, hnr, hc, processCount, h0, h1,
        pyInt_numeric ha, pyInt_numeric hb]

/-- Witness for C7 at the concrete entry `Buttons: {"count": [2, 8]}`. -/
theorem C7_witness :
    processEntry "Buttons" (.jobj [("count", .jlist [.jint 2, .jint 8])]) =
      .ok (some (mkIntEntry "Buttons"
        (pyTrunc (ratOf (.jint 2))) (pyTrunc (ratOf (.jint 8))))) :=
  C7_count_truncation "Buttons" [("count", .jlist [.jint 2, .jint 8])]
    (.jint 2) (.jint 8) [] rfl rfl rfl rfl

/-- Counterexample to C7 as stated: for `count: [-2.5, 8]` the code computes
`min = int(-2.5) = -2` (truncation toward zero), while the claim's
mathematical floor of `-2.5` is `-3`. -/
theorem C7_counterexample :
    processEntry "Buttons" (.jobj [("count", .jlist [.jfloat (-(5/2)), .jint 8])])
        = .ok (some (mkIntEntry "Buttons" (-2) 8))
      ∧ Int.floor (-(5/2 : ℚ)) = -3
      ∧ ((-2 : Int)) ≠ (-3 : Int) := by
  refine ⟨?_, ?_, by decide⟩
  · have hc : Int.ceil (-(5/2 : ℚ)) = -2 := by
      rw [Int.ceil_eq_iff] <;> norm_num
    have h1 : lookupJ [("count", JVal.jlist [JVal.jfloat (-(5/2)), JVal.jint 8])]
        "range" = none := rfl
    have h2 : lookupJ [("count", JVal.jlist [JVal.jfloat (-(5/2)), JVal.jint 8])]
        "count" = some (JVal.jlist [JVal.jfloat (-(5/2)), JVal.jint 8]) := rfl
    norm_num [processEntry, h1, h2, pyIndex, processCount, pyInt, pyTrunc, hc]
  · rw [Int.floor_eq_iff] <;> norm_num

/-- C10 (confirmed): a `range` entry whose two bounds are JSON booleans is
classified as Int — booleans pass the `isinstance(..., int)` representability
check — with `min = int(b1)`, `max = int(b2)`, `default = min`; in
particular `range: [false, true]` yields `min = 0`, `max = 1`,
`default = 0`. -/
theorem C10_boolean_range_int (name : String) (b1 b2 : Bool) :
    processEntry name (.jobj [("range", .jlist [.jbool b1, .jbool b2])]) =
        .ok (some (mkIntEntry name (if b1 then 1 else 0) (if b2 then 1 else 0)))
      ∧ isinstInt (.jbool b1) = true
      ∧ processEntry name (.jobj [("range", .jlist [.jbool false, .jbool true])]) =
          .ok (some (mkIntEntry name 0 1)) := by
  refine ⟨?_, rfl, rfl⟩
  cases b1 <;> cases b2 <;> rfl

/-! ### Claim C5: string-enum selector branches -/

theorem menuItems_names (name : String) (xs : List JVal) :
    ((xs.filterMap (fun v =>
        match v with
        | JVal.jstr s => some (⟨s, name ++ " option: " ++ s⟩ : EnumItem)
        | _ => none)).map EnumItem.name)
      = (xs.filter isStr).map pyStr := by
  induction xs with
  | nil => rfl
  | cons v rest ih =>
    cases v <;> simp [isStr, pyStr, ih]

theorem menuItems_desc (name : String) (xs : List JVal) :
    ∀ it ∈ xs.filterMap (fun v =>
        match v with
        | JVal.jstr s => some (⟨s, name ++ " option: " ++ s⟩ : EnumItem)
        | _ => none),
      it.description = name ++ " option: " ++ it.name := by
  induction xs with
  | nil => intro it h; simp at h
  | cons v rest ih =>
    intro it h
    cases v with
    | jstr s =>
      simp only [List.filterMap_cons] at h
      cases h with
      | head => rfl
      | tail _ h2 => exact ih it h2
    | jnull => exact ih it h
    | jbool b => exact ih it h
    | jint n => exact ih it h
    | jfloat q => exact ih it h
    | jlist ys => exact ih it h
    | jobj fs => exact ih it h

theorem filter_isStr_of_all {xs : List JVal} (h : xs.all isStr = true) :
    xs.filter isStr = xs :=
  List.filter_eq_self.mpr (by simpa [List.all_eq_true] using h)

/-- C5 (corrected): for a list entry with at least one string element, the
emitted menu switch node's branch names are the string-COERCIONS OF ONLY THE
STRING-TYPED elements, in source order (each branch carrying the description
`"<name> option: <option>"`), while the stored `menu_options_<name>`
property joins ALL elements coerced by `str`.  The branch sequence equals
the full coerced option sequence exactly when every element is a string. -/
theorem C5_selector_branches (name : String) (xs : List JVal)
    (h : xs.any isStr = true) :
    ∃ m : MenuSwitchNode,
      entryMenuOf (processEntry name (.jlist xs)) = some m
      ∧ m.items.map EnumItem.name = (xs.filter isStr).map pyStr
      ∧ (∀ it ∈ m.items, it.description = name ++ " option: " ++ it.name)
      ∧ entryPropOf (processEntry name (.jlist xs))
          = some ("menu_options_" ++ name, String.intercalate "," (xs.map pyStr))
      ∧ (xs.all isStr = true → m.items.map EnumItem.name = xs.map pyStr) := by
  refine ⟨⟨"MenuSwitch_" ++ name, name,
    xs.filterMap (fun v =>
      match v with
      | JVal.jstr s => some (⟨s, name ++ " option: " ++ s⟩ : EnumItem)
      | _ => none)⟩, ?_, ?_, ?_, ?_, ?_⟩
  · simp [entryMenuOf, processEntry, processList, h]
  · exact menuItems_names name xs
  · exact menuItems_desc name xs
  · simp [entryPropOf, processEntry, processList, h]
  · intro hall
    rw [menuItems_names name xs, filter_isStr_of_all hall]

/-- Witness for C5 at the concrete list `["Square", "Round"]`. -/
theorem C5_witness :
    ∃ m : MenuSwitchNode,
      entryMenuOf (processEntry "Shape" (.jlist [.jstr "Square", .jstr "Round"])) = some m
      ∧ m.items.map EnumItem.name
          = (([.jstr "Square", .jstr "Round"] : List JVal).filter isStr).map pyStr
      ∧ (∀ it ∈ m.items, it.description = "Shape" ++ " option: " ++ it.name)
      ∧ entryPropOf (processEntry "Shape" (.jlist [.jstr "Square", .jstr "Round"]))
          = some ("menu_options_" ++ "Shape",
              String.intercalate "," (([.jstr "Square", .jstr "Round"] : List JVal).map pyStr))
      ∧ (([.jstr "Square", .jstr "Round"] : List JVal).all isStr = true →
          m.items.map EnumItem.name
            = ([.jstr "Square", .jstr "Round"] : List JVal).map pyStr) :=
  C5_selector_branches "Shape" [.jstr "Square", .jstr "Round"] rfl

/-- Counterexample to C5 as stated: for the mixed list `["Red", 5]` the
stored option property coerces ALL elements (`"Red,5"`), but the menu node
has a single branch `"Red"` — the branch set does not equal the full coerced
option sequence. -/
theorem C5_counterexample :
    entryMenuOf (processEntry "Color" (.jlist [.jstr "Red", .jint 5]))
        = some ⟨"MenuSwitch_Color", "Color", [⟨"Red", "Color option: Red"⟩]⟩
      ∧ entryPropOf (processEntry "Color" (.jlist [.jstr "Red", .jint 5]))
          = some ("menu_options_Color", "Red,5")
      ∧ ([.jstr "Red", .jint 5] : List JVal).map pyStr = ["Red", "5"]
      ∧ ([⟨"Red", "Color option: Red"⟩] : List EnumItem).map EnumItem.name = ["Red"]
      ∧ (["Red"] : List String) ≠ ["Red", "5"] := by
  refine ⟨by decide, by decide, by decide, by decide, by decide⟩

/-! ### Build-loop lemmas -/

theorem buildEntries_safe_err (es : List (String × JVal)) (g : NodeGroup)
    (hs : ∀ p ∈ es, entryOk (processEntry p.1 p.2) = true) :
    (buildEntries g es).2 = none := by
  induction es generalizing g with
  | nil => rfl
  | cons p rest ih =>
    obtain ⟨n, v⟩ := p
    have h0 := hs (n, v) (List.mem_cons_self _ _)
    cases hp : processEntry n v with
    | error e => simp [entryOk, hp] at h0
    | ok r =>
      cases r with
      | none =>
        simpa [buildEntries, hp] using
          ih g (fun q hq => hs q (List.mem_cons_of_mem _ hq))
      | some eo =>
        simpa [buildEntries, hp] using
          ih (addEntry g eo) (fun q hq => hs q (List.mem_cons_of_mem _ hq))

theorem buildEntries_safe_sockets (es : List (String × JVal)) (g : NodeGroup)
    (hs : ∀ p ∈ es, entryOk (processEntry p.1 p.2) = true) :
    (buildEntries g es).1.sockets
      = g.sockets ++ (es.filterMap classifiedEntry).map (fun e => e.socket) := by
  induction es generalizing g with
  | nil => simp [buildEntries]
  | cons p rest ih =>
    obtain ⟨n, v⟩ := p
    have h0 := hs (n, v) (List.mem_cons_self _ _)
    cases hp : processEntry n v with
    | error e => simp [entryOk, hp] at h0
    | ok r =>
      cases r with
      | none =>
        rw [show buildEntries g ((n, v) :: rest) = buildEntries g rest by
              simp [buildEntries, hp],
            ih g (fun q hq => hs q (List.mem_cons_of_mem _ hq))]
        simp [classifiedEntry, hp, List.filterMap_cons]
      | some eo =>
        rw [show buildEntries g ((n, v) :: rest) = buildEntries (addEntry g eo) rest by
              simp [buildEntries, hp],
            ih (addEntry g eo) (fun q hq => hs q (List.mem_cons_of_mem _ hq))]
        simp [classifiedEntry, hp, List.filterMap_cons, addEntry, List.append_assoc]

theorem buildEntries_sockets_mem {s : InterfaceSocket} :
    ∀ (es : List (String × JVal)) (g : NodeGroup),
      s ∈ (buildEntries g es).1.sockets →
      s ∈ g.sockets
        ∨ ∃ n v eo, (n, v) ∈ es ∧ processEntry n v = .ok (some eo) ∧ s = eo.socket := by
  intro es
  induction es with
  | nil => exact fun g h => Or.inl h
  | cons p rest ih =>
    intro g h
    obtain ⟨n, v⟩ := p
    cases hp : processEntry n v with
    | error e =>
      rw [show buildEntries g ((n, v) :: rest) = (g, some e) by
            simp [buildEntries, hp]] at h
      exact Or.inl h
    | ok r =>
      cases r with
      | none =>
        rw [show buildEntries g ((n, v) :: rest) = buildEntries g rest by
              simp [buildEntries, hp]] at h
        rcases ih g h with hL | ⟨n2, v2, eo2, hm, hpe, hs2⟩
        · exact Or.inl hL
        · exact Or.inr ⟨n2, v2, eo2, List.mem_cons_of_mem _ hm, hpe, hs2⟩
      | some eo =>
        rw [show buildEntries g ((n, v) :: rest) = buildEntries (addEntry g eo) rest by
              simp [buildEntries, hp]] at h
        rcases ih (addEntry g eo) h with hL | ⟨n2, v2, eo2, hm, hpe, hs2⟩
        · rcases List.mem_append.mp hL with hg | hone
          · exact Or.inl hg
          · refine Or.inr ⟨n, v, eo, List.mem_cons_self _ _, hp, ?_⟩
            simpa using hone
        · exact Or.inr ⟨n2, v2, eo2, List.mem_cons_of_mem _ hm, hpe, hs2⟩

/-! ### Shape lemmas for per-entry outputs -/

theorem processRange_shape {name : String} {rv : JVal} {eo : EntryOut}
    (h : processRange name rv = .ok eo) :
    (∃ a b, eo = mkIntEntry name a b) ∨ (∃ x y, eo = mkFloatEntry name x y) := by
  unfold processRange at h
  repeat' split at h
  all_goals first
    | exact Except.noConfusion h
    | exact Or.inl ⟨_, _, (Except.ok.inj h).symm⟩
    | exact Or.inr ⟨_, _, (Except.ok.inj h).symm⟩

theorem processCount_shape {name : String} {cv : JVal} {eo : EntryOut}
    (h : processCount name cv = .ok eo) :
    ∃ a b, eo = mkIntEntry name a b := by
  unfold processCount at h
  repeat' split at h
  all_goals first
    | exact Except.noConfusion h
    | exact ⟨_, _, (Except.ok.inj h).symm⟩

theorem processList_shape {name : String} {xs : List JVal} {eo : EntryOut}
    (h : processList name xs = .ok eo) :
    eo.socket.minVal = none
    ∨ eo.socket
        = ⟨name, .input, .int, some (.i 0), some (.i ((xs.length : Int) - 1)),
           some (.i 0)⟩ := by
  by_cases hstr : xs.any isStr = true
  · rw [processList.eq_def, if_pos hstr] at h
    obtain rfl := Except.ok.inj h
    exact Or.inl rfl
  · by_cases hb : xs.all isBool = true
    · cases xs with
      | nil =>
        rw [processList.eq_def, if_neg hstr, if_pos hb] at h
        exact Except.noConfusion h
      | cons v tail =>
        rw [processList.eq_def, if_neg hstr, if_pos hb] at h
        obtain rfl := Except.ok.inj h
        exact Or.inl rfl
    · rw [processList.eq_def, if_neg hstr, if_neg hb] at h
      obtain rfl := Except.ok.inj h
      exact Or.inr rfl

theorem processEntry_inv {n : String} {v : JVal} {eo : EntryOut}
    (h : processEntry n v = .ok (some eo)) :
    ∀ mn mx df : SVal, eo.socket.minVal = some mn → eo.socket.maxVal = some mx →
      eo.socket.defaultVal = some df → SVal.toRat mn ≤ SVal.toRat mx →
      SVal.toRat mn ≤ SVal.toRat df ∧ SVal.toRat df ≤ SVal.toRat mx := by
  intro mn mx df hmn hmx hdf hle
  cases v with
  | jobj fields =>
    rw [processEntry] at h
    split at h
    · split at h
      · rename_i heq
        obtain rfl : _ = eo := Option.some.inj (Except.ok.inj h)
        rcases processRange_shape heq with ⟨a, b, rfl⟩ | ⟨x, y, rfl⟩
        · simp only [mkIntEntry] at hmn hmx hdf
          obtain rfl := Option.some.inj hmn
          obtain rfl := Option.some.inj hmx
          obtain rfl := Option.some.inj hdf
          exact ⟨le_refl _, hle⟩
        · simp only [mkFloatEntry] at hmn hmx hdf
          obtain rfl := Option.some.inj hmn
          obtain rfl := Option.some.inj hmx
          obtain rfl := Option.some.inj hdf
          simp only [SVal.toRat] at hle ⊢
          constructor <;> linarith
      · exact Except.noConfusion h
    · split at h
      · split at h
        · rename_i heq
          obtain rfl : _ = eo := Option.some.inj (Except.ok.inj h)
          rcases processCount_shape heq with ⟨a, b, rfl⟩
          simp only [mkIntEntry] at hmn hmx hdf
          obtain rfl := Option.some.inj hmn
          obtain rfl := Option.some.inj hmx
          obtain rfl := Option.some.inj hdf
          exact ⟨le_refl _, hle⟩
        · exact Except.noConfusion h
      · simp at h
  | jlist xs =>
    rw [processEntry] at h
    split at h
    · rename_i heq
      obtain rfl : _ = eo := Option.some.inj (Except.ok.inj h)
      rcases processList_shape heq with hnone | hsock
      · rw [hnone] at hmn
        exact Option.noConfusion hmn
      · rw [hsock] at hmn hmx hdf
        obtain rfl := Option.some.inj hmn
        obtain rfl := Option.some.inj hmx
        obtain rfl := Option.some.inj hdf
        exact ⟨le_refl _, hle⟩
    · exact Except.noConfusion h
  | jnull => simp [processEntry] at h
  | jbool b => simp [processEntry] at h
  | jint n2 => simp [processEntry] at h
  | jfloat q => simp [processEntry] at h
  | jstr s => simp [processEntry] at h

/-! ### Claims C1 and C3: compilation robustness and the bounds invariant -/

/-- C1 (corrected): entries that match none of the classification rules
WITHOUT raising — scalars, and objects containing neither `range` nor
`count` — are skipped non-fatally, and compilation of all remaining entries
completes, yielding descriptors exactly for the classifiable entries.  (The
claim's parenthetical is wrong: degenerate values such as an empty list or
a `range`/`count` array with fewer than two elements raise inside the entry
loop, and the function-level handler then abandons the WHOLE compilation —
see the counterexample.) -/
theorem C1_compile_skips_safe_entries (st : List (String × NodeGroup))
    (tname : String) (fields entries : List (String × JVal))
    (hcfg : lookupJ fields "config" = some (.jobj entries))
    (hsafe : ∀ p ∈ entries, entryOk (processEntry p.1 p.2) = true) :
    ∃ g, (create_parameter_node_group st (.jobj fields) tname).2 = some g
      ∧ g.sockets
          = geometrySocket :: (entries.filterMap classifiedEntry).map (fun e => e.socket) := by
  have hcs : configSection (.jobj fields) = .ok (some entries) := by
    simp [configSection, hcfg]
  refine ⟨(buildEntries (emptyGroup tname) entries).1, ?_, ?_⟩
  · simp [create_parameter_node_group, hcs,
          buildEntries_safe_err entries (emptyGroup tname) hsafe]
  · rw [buildEntries_safe_sockets entries (emptyGroup tname) hsafe]
    rfl

/-- Witness for C1 on a config with one classifiable entry and one skipped
scalar entry. -/
theorem C1_witness :
    ∃ g, (create_parameter_node_group [] (.jobj [("config", .jobj
          [("Height", .jobj [("range", .jlist [.jint 0, .jint 10])]),
           ("Note", .jstr "hi")])]) "T").2 = some g
      ∧ g.sockets
          = geometrySocket ::
            (([("Height", .jobj [("range", .jlist [.jint 0, .jint 10])]),
               ("Note", .jstr "hi")] : List (String × JVal)).filterMap
                classifiedEntry).map (fun e => e.socket) :=
  C1_compile_skips_safe_entries []
    "T"
    [("config", .jobj
      [("Height", .jobj [("range", .jlist [.jint 0, .jint 10])]),
       ("Note", .jstr "hi")])]
    [("Height", .jobj [("range", .jlist [.jint 0, .jint 10])]),
     ("Note", .jstr "hi")]
    rfl (by decide)

/-- Counterexample to C1 as stated: a `range` array with a single element,
or an empty list (which reaches `param_data[0]` through the vacuously true
all-booleans check), raises inside the loop; the function-level handler
returns `None`, so compilation does NOT continue and the remaining
perfectly classifiable entry gets no descriptor. -/
theorem C1_counterexample :
    (create_parameter_node_group [] (.jobj [("config", .jobj
        [("Broken", .jobj [("range", .jlist [.jint 1])]),
         ("Height", .jobj [("range", .jlist [.jint 0, .jint 10])])])]) "T").2 = none
    ∧ (create_parameter_node_group [] (.jobj [("config", .jobj
        [("Empty", .jlist []),
         ("Height", .jobj [("range", .jlist [.jint 0, .jint 10])])])]) "T").2 = none
    ∧ entryOk (processEntry "Height" (.jobj [("range", .jlist [.jint 0, .jint 10])]))
        = true := by
  refine ⟨by decide, by decide, by decide⟩

/-- C3 (corrected): every socket of a successfully compiled interface that
carries min, max and default satisfies `min ≤ default ≤ max` PROVIDED
`min ≤ max` — i.e. provided the source bounds satisfy `lo ≤ hi`.
Classification takes bounds as given, so for `lo > hi` the invariant fails
(see the counterexample); the claim's "including where lo exceeds hi" is
the wrong part. -/
theorem C3_bounds_invariant (st : List (String × NodeGroup)) (doc : JVal)
    (tname : String) (g : NodeGroup)
    (hres : (create_parameter_node_group st doc tname).2 = some g) :
    ∀ s ∈ g.sockets, ∀ mn mx df : SVal,
      s.minVal = some mn → s.maxVal = some mx → s.defaultVal = some df →
      SVal.toRat mn ≤ SVal.toRat mx →
      SVal.toRat mn ≤ SVal.toRat df ∧ SVal.toRat df ≤ SVal.toRat mx := by
  intro s hmem mn mx df hmn hmx hdf hle
  unfold create_parameter_node_group at hres
  split at hres
  · rename_i entries heq
    simp only at hres
    split at hres
    · exact Option.noConfusion hres
    · obtain rfl : _ = g := Option.some.inj hres
      rcases buildEntries_sockets_mem entries (emptyGroup tname) hmem with hL | ⟨n, v, eo, _, hpe, rfl⟩
      · have hs : s = geometrySocket := by
          simpa [emptyGroup] using hL
        rw [hs] at hmn
        exact Option.noConfusion hmn
      · exact processEntry_inv hpe mn mx df hmn hmx hdf hle
  · obtain rfl : _ = g := Option.some.inj hres
    have hs : s = geometrySocket := by
      simpa [emptyGroup] using hmem
    rw [hs] at hmn
    exact Option.noConfusion hmn
  · exact Option.noConfusion hres

/-- Witness for C3 on the compiled config `{"Height": {"range": [0, 10]}}`
and its Int socket. -/
theorem C3_witness :
    SVal.toRat (.i 0) ≤ SVal.toRat (.i 0) ∧ SVal.toRat (.i 0) ≤ SVal.toRat (.i 10) :=
  C3_bounds_invariant []
    (.jobj [("config", .jobj [("Height", .jobj [("range", .jlist [.jint 0, .jint 10])])])])
    "T"
    ⟨"T", [geometrySocket, ⟨"Height", .input, .int, some (.i 0), some (.i 10), some (.i 0)⟩],
     [], [], []⟩
    (by decide)
    ⟨"Height", .input, .int, some (.i 0), some (.i 10), some (.i 0)⟩
    (by decide)
    (.i 0) (.i 10) (.i 0) rfl rfl rfl
    (by simp [SVal.toRat])

/-- Counterexample to C3 as stated: for `{"range": [10, 0]}` (lo exceeds hi)
the emitted Int socket has `min = 10`, `max = 0`, `default = 10`, and
`default ≤ max` fails. -/
theorem C3_counterexample :
    (create_parameter_node_group []
        (.jobj [("config", .jobj [("p", .jobj [("range", .jlist [.jint 10, .jint 0])])])])
        "T").2
      = some ⟨"T", [geometrySocket,
          ⟨"p", .input, .int, some (.i 10), some (.i 0), some (.i 10)⟩], [], [], []⟩
    ∧ ¬ (SVal.toRat (.i 10) ≤ SVal.toRat (.i 0)) := by
  constructor
  · decide
  · simp [SVal.toRat]

/-! ### Material-registry lemmas -/

theorem csm_registry (parts : List String) (m : List String) :
    (create_simple_materials parts m).1 = m ++ (create_simple_materials parts m).2 := by
  induction parts generalizing m with
  | nil => simp [create_simple_materials]
  | cons p rest ih =>
    by_cases hp : p ∈ m
    · simp only [create_simple_materials, if_pos hp]
      exact ih m
    · simp only [create_simple_materials, if_neg hp]
      rw [ih (m ++ [p])]
      simp

theorem csm_mem_of_mem {x : String} (parts : List String) (m : List String)
    (h : x ∈ m) : x ∈ (create_simple_materials parts m).1 := by
  rw [csm_registry]
  exact List.mem_append_left _ h

theorem csm_part_mem {p : String} (parts : List String) (m : List String)
    (h : p ∈ parts) : p ∈ (create_simple_materials parts m).1 := by
  induction parts generalizing m with
  | nil => simp at h
  | cons q rest ih =>
    by_cases hq : q ∈ m
    · simp only [create_simple_materials, if_pos hq]
      rcases List.mem_cons.mp h with rfl | hrest
      · exact csm_mem_of_mem rest m hq
      · exact ih m hrest
    · simp only [create_simple_materials, if_neg hq]
      rcases List.mem_cons.mp h with rfl | hrest
      · exact csm_mem_of_mem rest (m ++ [p]) (by simp)
      · exact ih (m ++ [q]) hrest

theorem csm_all_skip (parts : List String) (m : List String)
    (h : ∀ p ∈ parts, p ∈ m) :
    create_simple_materials parts m = (m, []) := by
  induction parts with
  | nil => rfl
  | cons p rest ih =>
    have hp : p ∈ m := h p (List.mem_cons_self _ _)
    simp only [create_simple_materials, if_pos hp]
    exact ih (fun q hq => h q (List.mem_cons_of_mem _ hq))

theorem csm_created_mem {x : String} (parts : List String) (m : List String)
    (h : x ∈ (create_simple_materials parts m).2) :
    x ∈ (create_simple_materials parts m).1 := by
  rw [csm_registry]
  exact List.mem_append_right _ h

theorem csm_created_filter (parts : List String) (m : List String)
    (hnd : parts.Nodup) :
    (create_simple_materials parts m).2
      = parts.filter (fun p => decide (p ∉ m)) := by
  induction parts generalizing m with
  | nil => rfl
  | cons p rest ih =>
    obtain ⟨hp_not, hrnd⟩ := List.nodup_cons.mp hnd
    by_cases hp : p ∈ m
    · simp only [create_simple_materials, if_pos hp]
      rw [ih m hrnd]
      simp [List.filter_cons, hp]
    · simp only [create_simple_materials, if_neg hp]
      rw [ih (m ++ [p]) hrnd]
      have hcong : ∀ x ∈ rest, (decide (x ∉ m ++ [p]) : Bool) = decide (x ∉ m) := by
        intro x hx
        have hxp : x ≠ p := fun he => hp_not (he ▸ hx)
        simp [List.mem_append, hxp]
      rw [List.filter_congr hcong]
      simp [List.filter_cons, hp]

theorem assign_all (names mats : List String)
    (h : ∀ x ∈ names, x ∈ mats) :
    assign_materials_to_object names mats = names := by
  unfold assign_materials_to_object
  exact List.filter_eq_self.mpr (fun a ha => decide_eq_true (h a ha))

/-! ### Claims C2, C9, C4: appearance binder and idempotency policies -/

/-- C2 (corrected): with an active target object, when at least one part
name is new, the binder clears the slot list and repopulates it with ONLY
the materials newly created this run (in `parts` order, which under unique
part names is the sublist of part names absent from the registry) — NOT the
full resolved MaterialSet: part names whose material already existed are not
assigned.  When nothing is new the assignment step is skipped entirely. -/
theorem C2_binder_assigns_created_only (parts : List String) (h : Host)
    (slots : List String) (hact : h.activeSlots = some slots)
    (hnd : parts.Nodup) :
    ((apply_parts parts h).activeSlots
        = some (if (create_simple_materials parts h.materials).2 = []
                then slots
                else (create_simple_materials parts h.materials).2))
      ∧ (create_simple_materials parts h.materials).2
          = parts.filter (fun p => decide (p ∉ h.materials)) := by
  constructor
  · unfold apply_parts
    rw [hact]
    by_cases hc : (create_simple_materials parts h.materials).2 = []
    · simp [hc]
    · simp only [if_neg hc]
      rw [assign_all _ _ (fun x hx => csm_created_mem parts h.materials hx)]
  · exact csm_created_filter parts h.materials hnd

/-- Witness for C2 with parts `["A", "B"]`, existing material `"A"` and an
active object whose slots initially hold `"X"`. -/
theorem C2_witness :
    ((apply_parts ["A", "B"] ⟨[], ["A"], some ["X"]⟩).activeSlots
        = some (if (create_simple_materials ["A", "B"]
                      (Host.mk [] ["A"] (some ["X"])).materials).2 = []
                then ["X"]
                else (create_simple_materials ["A", "B"]
                        (Host.mk [] ["A"] (some ["X"])).materials).2))
      ∧ (create_simple_materials ["A", "B"]
            (Host.mk [] ["A"] (some ["X"])).materials).2
          = (["A", "B"] : List String).filter
              (fun p => decide (p ∉ (Host.mk [] ["A"] (some ["X"])).materials)) :=
  C2_binder_assigns_created_only ["A", "B"] ⟨[], ["A"], some ["X"]⟩ ["X"]
    rfl (by decide)

/-- Counterexample to C2 as stated: running the whole loader on a document
with parts `A` and `B` where material `A` already exists and the active
object holds slot list `["X"]` leaves the slots at `["B"]` — only the newly
created material — not the full MaterialSet `["A", "B"]`. -/
theorem C2_counterexample :
    (load_config_file
        (.jobj [("config", .jobj []), ("parts", .jobj [("A", .jnull), ("B", .jnull)])])
        "T_Config.json" ⟨[], ["A"], some ["X"]⟩).1.activeSlots = some ["B"]
      ∧ (some ["B"] : Option (List String)) ≠ some ["A", "B"] := by
  refine ⟨by decide, by decide⟩

/-- C9 (confirmed): when every part name already exists as a material, the
created list is empty, the assignment step is skipped entirely, and the
whole host state — material registry AND the active object's slots — is
left unchanged. -/
theorem C9_binder_noop_when_all_exist (parts : List String) (h : Host)
    (hall : ∀ p ∈ parts, p ∈ h.materials) :
    (create_simple_materials parts h.materials).2 = []
      ∧ apply_parts parts h = h := by
  have hskip := csm_all_skip parts h.materials hall
  constructor
  · rw [hskip]
  · unfold apply_parts
    rw [hskip]
    cases h with
    | mk ngs mats slots =>
      cases slots with
      | none => rfl
      | some s => rfl

/-- Witness for C9 with parts `["A"]` all pre-existing. -/
theorem C9_witness :
    (create_simple_materials ["A"] (Host.mk [] ["A"] (some ["X"])).materials).2 = []
      ∧ apply_parts ["A"] ⟨[], ["A"], some ["X"]⟩ = ⟨[], ["A"], some ["X"]⟩ :=
  C9_binder_noop_when_all_exist ["A"] ⟨[], ["A"], some ["X"]⟩ (by decide)

theorem create_png_snd_state_free (st st2 : List (String × NodeGroup))
    (doc : JVal) (tname : String) :
    (create_parameter_node_group st doc tname).2
      = (create_parameter_node_group st2 doc tname).2 := by
  unfold create_parameter_node_group
  cases hcs : configSection doc with
  | error e => rfl
  | ok r => cases r <;> rfl

theorem filter_eq_of_filter_ne (st : List (String × NodeGroup)) (tname : String) :
    (st.filter (fun p => p.1 != tname)).filter (fun p => p.1 == tname) = [] := by
  rw [List.filter_filter]
  apply List.filter_eq_nil_iff.mpr
  intro a _
  cases hb : (a.1 == tname) <;> simp [bne, hb]

/-- C4 (confirmed): compiling the same document twice for the same target
name yields two structurally identical results (the pre-existing group is
unconditionally removed and rebuilt from the document alone — after a run
the registry holds exactly one group under the target name); whereas running
the material creation twice never recreates or overwrites: the second run
creates nothing and leaves the material registry exactly as the first run
left it. -/
theorem C4_replace_vs_skip_semantics (st : List (String × NodeGroup))
    (doc : JVal) (tname : String) (parts m : List String) :
    ((create_parameter_node_group st doc tname).2
        = (create_parameter_node_group
            (create_parameter_node_group st doc tname).1 doc tname).2)
      ∧ (((create_parameter_node_group st doc tname).1.filter
            (fun p => p.1 == tname)).length = 1)
      ∧ (create_simple_materials parts (create_simple_materials parts m).1).2 = []
      ∧ (create_simple_materials parts (create_simple_materials parts m).1).1
          = (create_simple_materials parts m).1 := by
  have hall : ∀ p ∈ parts, p ∈ (create_simple_materials parts m).1 :=
    fun p hp => csm_part_mem parts m hp
  have hskip := csm_all_skip parts (create_simple_materials parts m).1 hall
  refine ⟨create_png_snd_state_free st _ doc tname, ?_, by rw [hskip], by rw [hskip]⟩
  unfold create_parameter_node_group
  cases hcs : configSection doc with
  | error e =>
    simp only [List.filter_append, filter_eq_of_filter_ne, List.nil_append]
    simp
  | ok r =>
    cases r <;>
      simp only [List.filter_append, filter_eq_of_filter_ne, List.nil_append] <;>
      simp

/-! ### String-replacement lemmas for the filename convention -/

theorem replaceGo_nil (fuel : Nat) (pat repl : List Char) :
    replaceGo fuel pat repl [] = [] := by
  cases fuel <;> rfl

theorem replaceGo_no_match (pat repl : List Char) :
    ∀ (s : List Char) (fuel : Nat), hasMatch pat s = false → s.length ≤ fuel →
      replaceGo fuel pat repl s = s := by
  intro s
  induction s with
  | nil => intro fuel _ _; exact replaceGo_nil fuel pat repl
  | cons c rest ih =>
    intro fuel hm hf
    cases fuel with
    | zero => simp at hf
    | succ f =>
      rw [hasMatch] at hm
      have hpre : pat.isPrefixOf (c :: rest) = false := by
        cases hx : pat.isPrefixOf (c :: rest)
        · rfl
        · rw [hx] at hm; simp at hm
      have hrest : hasMatch pat rest = false := by
        cases hx : hasMatch pat rest
        · rfl
        · rw [hx] at hm; simp at hm
      have hne : pat.isEmpty = false := by
        cases pat with
        | nil => simp [List.isPrefixOf] at hpre
        | cons a l => rfl
      rw [replaceGo, if_neg (by simp [hne]), if_neg (by simp [hpre])]
      have : rest.length ≤ f := by simpa using hf
      rw [ih f hrest this]

theorem isPrefixOf_self (pat : List Char) : pat.isPrefixOf pat = true :=
  List.isPrefixOf_iff_prefix.mpr (List.prefix_refl pat)

theorem replaceGo_strip (pat : List Char) (hne : pat ≠ []) :
    ∀ (stem : List Char) (fuel : Nat),
      noEarlyMatch pat stem → (stem ++ pat).length ≤ fuel →
      replaceGo fuel pat [] (stem ++ pat) = stem := by
  intro stem
  induction stem with
  | nil =>
    intro fuel _ hf
    cases pat with
    | nil => exact absurd rfl hne
    | cons a l =>
      cases fuel with
      | zero => simp at hf
      | succ f =>
        rw [List.nil_append, replaceGo, if_neg (by simp),
            if_pos (isPrefixOf_self (a :: l))]
        rw [List.drop_length]
        simpa using replaceGo_nil f (a :: l) []
  | cons c rest ih =>
    intro fuel hnem hf
    cases fuel with
    | zero => simp at hf
    | succ f =>
      have hempty : pat.isEmpty = false := by
        cases pat with
        | nil => exact absurd rfl hne
        | cons a l => rfl
      have h0 : pat.isPrefixOf (List.drop 0 ((c :: rest) ++ pat)) = false :=
        hnem 0 (by simp)
      rw [List.drop_zero] at h0
      rw [List.cons_append, replaceGo, if_neg (by simp [hempty])]
      rw [List.cons_append] at h0
      rw [if_neg (by simp [h0])]
      have hshift : noEarlyMatch pat rest := by
        intro i hi
        have := hnem (i + 1) (by simpa using Nat.succ_lt_succ hi)
        simpa [List.cons_append] using this
      have hlen : (rest ++ pat).length ≤ f := by
        simpa [List.length_append] using hf
      rw [ih f hshift hlen]

theorem lastDotIdx_no_dot (l : List Char) (h : ('.' : Char) ∉ l) :
    lastDotIdx l = none := by
  induction l with
  | nil => rfl
  | cons c rest ih =>
    have hc : c ≠ '.' := fun he => h (he ▸ List.mem_cons_self _ _)
    have hrest : ('.' : Char) ∉ rest := fun hm => h (List.mem_cons_of_mem _ hm)
    rw [lastDotIdx, ih hrest]
    simp [hc]

theorem lastDotIdx_append (pre tl : List Char) (h : ('.' : Char) ∉ tl) :
    lastDotIdx (pre ++ '.' :: tl) = some pre.length := by
  induction pre with
  | nil =>
    rw [List.nil_append, lastDotIdx, lastDotIdx_no_dot tl h]
    simp
  | cons c rest ih =>
    rw [List.cons_append, lastDotIdx, ih]
    simp

theorem splitextBase_append (pre tl : List Char) (htl : ('.' : Char) ∉ tl)
    (hpre : pre.any (fun c => c ≠ '.') = true) :
    splitextBase (pre ++ '.' :: tl) = pre := by
  rw [splitextBase, lastDotIdx_append pre tl htl]
  simp only [List.take_left, hpre, if_true]

/-! ### Claim C8: target-name derivation from the filename -/

/-- C8 (corrected): the target name is derived from the extension-stripped
base name by `str.replace` — removing every EXACT-CASE occurrence of
`"_Config"` and then every exact-case occurrence of `"_config"`, anywhere in
the name, not only as a terminal suffix; other casings such as `"_CONFIG"`
are NOT removed (the claim's case-insensitivity is the wrong part).  For the
conventional `<Stem>_Config.json` / `<Stem>_config.json` with a stem free of
those substrings, the result is exactly the stem. -/
theorem C8_object_name_derivation (stem : List Char)
    (h1 : noEarlyMatch ("_Config".toList) stem)
    (h2 : noEarlyMatch ("_config".toList) stem)
    (h3 : hasMatch ("_config".toList) stem = false)
    (h4 : hasMatch ("_Config".toList) (stem ++ "_config".toList) = false) :
    objectNameOfChars (stem ++ "_Config.json".toList) = stem
      ∧ objectNameOfChars (stem ++ "_config.json".toList) = stem := by
  have hjson : ('.' : Char) ∉ "json".toList := by decide
  constructor
  · have hsplit : ("_Config.json".toList : List Char)
        = "_Config".toList ++ '.' :: "json".toList := by decide
    rw [objectNameOfChars, hsplit, ← List.append_assoc]
    rw [splitextBase_append _ _ hjson
          (by
            rw [List.any_append]
            have hc : (("_Config".toList).any (fun c => c ≠ '.')) = true := by decide
            simp [hc])]
    have hinner : replaceAll ("_Config".toList) [] (stem ++ "_Config".toList) = stem := by
      rw [replaceAll]
      exact replaceGo_strip ("_Config".toList) (by decide) stem _ h1 (le_refl _)
    rw [objectNameOfBase, hinner, replaceAll,
        replaceGo_no_match _ _ stem _ h3 (le_refl _)]
  · have hsplit : ("_config.json".toList : List Char)
        = "_config".toList ++ '.' :: "json".toList := by decide
    rw [objectNameOfChars, hsplit, ← List.append_assoc]
    rw [splitextBase_append _ _ hjson
          (by
            rw [List.any_append]
            have hc : (("_config".toList).any (fun c => c ≠ '.')) = true := by decide
            simp [hc])]
    have hinner : replaceAll ("_Config".toList) [] (stem ++ "_config".toList)
        = stem ++ "_config".toList := by
      rw [replaceAll]
      exact replaceGo_no_match _ _ _ _ h4 (le_refl _)
    rw [objectNameOfBase, hinner, replaceAll,
        replaceGo_strip ("_config".toList) (by decide) stem _ h2 (le_refl _)]

/-- Witness for C8 with the stem `Box`. -/
theorem C8_witness :
    objectNameOfChars ("Box".toList ++ "_Config.json".toList) = "Box".toList
      ∧ objectNameOfChars ("Box".toList ++ "_config.json".toList) = "Box".toList :=
  C8_object_name_derivation ("Box".toList)
    (by unfold noEarlyMatch; decide) (by unfold noEarlyMatch; decide)
    (by decide) (by decide)

/-- Counterexample to C8 as stated: the suffix is NOT stripped
case-insensitively — `FOO_CONFIG.json` keeps its `_CONFIG`; and removal is
not suffix-only — an interior `_Config` is removed too
(`My_Config_Box_Config.json` becomes `My_Box`, not `My_Config_Box`). -/
theorem C8_counterexample :
    objectNameOf "FOO_CONFIG.json" = "FOO_CONFIG"
      ∧ ("FOO_CONFIG" : String) ≠ "FOO"
      ∧ objectNameOf "My_Config_Box_Config.json" = "My_Box"
      ∧ ("My_Box" : String) ≠ "My_Config_Box" := by
  refine ⟨by decide, by decide, by decide, by decide⟩
